import Mathlib

/-!
Shallow embedding of the cribbage scoring engine and discard/expected-value
solver of `nextjs-cribbage` (source: the card/scoring module, exporting
`scoreHand`, `scoreHandWithoutStarter`, `averageHandScores`,
`expectedCribValue` and `evaluateDiscards`).

Conventions of the embedding:
* JavaScript numbers are embedded as `ℕ` where the source only ever holds
  non-negative integers (card values, orders, points, totals) and as `ℚ`
  where the source divides (averages, expected values).
* `ScorePart.detail` (the human-readable justification trace) is omitted:
  the specification states the trace is an auditability aid and not a
  correctness-bearing field; no claim mentions it.  `label` and `points`
  are kept.
* JavaScript's `Array.prototype.sort(cmp)` is required to be stable, and a
  stable sort by a total preorder is unique; it is embedded as the stable
  `List.insertionSort` with the relation `r a b := cmp a b ≤ 0` (for the
  numeric comparators `(a, b) => b.score - a.score` and
  `(a, b) => b.expectedValue - a.expectedValue` this is
  `r a b := b.key ≤ a.key`, a stable descending sort).
* The index-based `for` loops of `expectedCribValue` are embedded as
  structural recursions that carry the already-visited prefixes
  explicitly: in `cribLoopOuter`/`cribLoopInner` the prefix `A` is the
  list of pool cards before index `i`, `B` the cards strictly between
  indices `i` and `j`, so the starter loop over `k ≠ i, j` is exactly
  `A ++ B ++ C`.
-/

inductive Suit : Type where
  | spades | hearts | diamonds | clubs
deriving DecidableEq, Fintype

structure Card where
  rank : String
  value : ℕ
  order : ℕ
  suit : Suit
  id : String
deriving DecidableEq

structure ScorePart where
  label : String
  points : ℕ
deriving DecidableEq

structure ScoreBreakdown where
  total : ℕ
  parts : List ScorePart
deriving DecidableEq

structure StarterScore where
  card : Card
  score : ℕ
deriving DecidableEq

structure DiscardSuggestion where
  keep : List Card
  discards : List Card
  handAverage : ℚ
  cribAverage : ℚ
  expectedValue : ℚ
  bestStarters : List StarterScore
deriving DecidableEq

structure RankInfo where
  label : String
  value : ℕ
  order : ℕ
deriving DecidableEq

def RANKS : List RankInfo :=
  [⟨"A", 1, 1⟩, ⟨"2", 2, 2⟩, ⟨"3", 3, 3⟩, ⟨"4", 4, 4⟩, ⟨"5", 5, 5⟩,
   ⟨"6", 6, 6⟩, ⟨"7", 7, 7⟩, ⟨"8", 8, 8⟩, ⟨"9", 9, 9⟩, ⟨"10", 10, 10⟩,
   ⟨"J", 10, 11⟩, ⟨"Q", 10, 12⟩, ⟨"K", 10, 13⟩]

def SUITS : List Suit := [.spades, .hearts, .diamonds, .clubs]

def suitSym : Suit → String
  | .spades => "♠"
  | .hearts => "♥"
  | .diamonds => "♦"
  | .clubs => "♣"

def DECK : List Card :=
  RANKS.flatMap fun rank =>
    SUITS.map fun suit =>
      { rank := rank.label, value := rank.value, order := rank.order,
        suit := suit, id := rank.label ++ suitSym suit }

/-- The recursive closure of `generateCombos`: with accumulated buffer `b`,
visit each element of the remaining list, pushing `b ++ [x]` (a non-empty
buffer is emitted on entry to the recursive call) before recursing with and
without `x`. -/
def genAux (b : List α) : List α → List (List α)
  | [] => []
  | x :: xs => ((b ++ [x]) :: genAux (b ++ [x]) xs) ++ genAux b xs

/-- `generateCombos(items)`: every non-empty subsequence of `items`, emitted
in the source's depth-first order. -/
def generateCombos (items : List α) : List (List α) := genAux [] items

def findFifteens (cards : List Card) : ScorePart :=
  let combos := generateCombos cards
  let hits := combos.countP fun combo =>
    decide ((combo.map (·.value)).sum = 15 ∧ 2 ≤ combo.length)
  { label := "Fifteens", points := hits * 2 }

/-- Helper for `firstDedup`: emit each element not seen before, in order. -/
def firstDedupAux [DecidableEq α] (seen : List α) : List α → List α
  | [] => []
  | x :: xs =>
      if x ∈ seen then firstDedupAux seen xs
      else x :: firstDedupAux (seen ++ [x]) xs

/-- First-occurrence deduplication: the key order of the JavaScript object
`byRank` built by insertion in `findPairs` (`Object.entries` iterates keys
in first-insertion order). -/
def firstDedup [DecidableEq α] (l : List α) : List α := firstDedupAux [] l

def findPairs (cards : List Card) : ScorePart :=
  let ranks := firstDedup (cards.map (·.rank))
  let points := (ranks.map fun r =>
    let c := cards.countP fun card => decide (card.rank = r)
    if 2 ≤ c then (c * (c - 1) / 2) * 2 else 0).sum
  { label := "Pairs", points := points }

/-- The inner `while (counts[j])` of `findRuns`: length of the block of
consecutive orders with non-zero count starting at `i`.  `fuel` bounds the
walk; every use supplies fuel beyond the largest order present, so the
cut-off is never reached. -/
def chainLen (counts : ℕ → ℕ) (i : ℕ) : ℕ → ℕ
  | 0 => 0
  | fuel + 1 => if counts i = 0 then 0 else chainLen counts (i + 1) fuel + 1

/-- The `product` accumulated by the same inner `while` loop. -/
def chainProd (counts : ℕ → ℕ) (i : ℕ) : ℕ → ℕ
  | 0 => 1
  | fuel + 1 => if counts i = 0 then 1 else counts i * chainProd counts (i + 1) fuel

/-- The outer `while (i <= 13)` scan of `findRuns`, carrying the
`bestLength` and `points` registers.  The structural `steps` argument only
bounds the number of loop iterations: `i` strictly increases on every
iteration and the loop runs while `i ≤ 13`, so from `i = 1` the loop
iterates at most 13 times and the `steps := 14` supplied by `findRuns` is
never exhausted. -/
def runScan (counts : ℕ → ℕ) (fuel : ℕ) : ℕ → ℕ → ℕ → ℕ → ℕ × ℕ
  | 0, _, best, pts => (best, pts)
  | steps + 1, i, best, pts =>
    if i ≤ 13 then
      if counts i = 0 then runScan counts fuel steps (i + 1) best pts
      else
        let len := chainLen counts i fuel
        let product := chainProd counts i fuel
        if 3 ≤ len then
          if best < len then runScan counts fuel steps (i + len + 1) len (len * product)
          else if len = best then
            runScan counts fuel steps (i + len + 1) best (pts + len * product)
          else runScan counts fuel steps (i + len + 1) best pts
        else runScan counts fuel steps (i + len + 1) best pts
    else (best, pts)

def cardCounts (cards : List Card) (o : ℕ) : ℕ :=
  cards.countP fun c => decide (c.order = o)

def findRuns (cards : List Card) : ScorePart :=
  let counts := cardCounts cards
  let fuel := ((cards.map (·.order)).foldr max 0) + 2
  { label := "Runs", points := (runScan counts fuel 14 1 0 0).2 }

def findFlush (hand : List Card) (starter : Card) : ScorePart :=
  let allSameSuit := match hand with
    | [] => true
    | h :: _ => hand.all fun c => decide (c.suit = h.suit)
  if allSameSuit = false then { label := "Flush", points := 0 }
  else
    let withStarter := match hand with
      | [] => false
      | h :: _ => decide (starter.suit = h.suit)
    { label := "Flush", points := if withStarter then 5 else 4 }

def findFlushHandOnly (hand : List Card) : ScorePart :=
  if hand.length ≠ 4 then { label := "Flush", points := 0 }
  else
    let allSameSuit := match hand with
      | [] => true
      | h :: _ => hand.all fun c => decide (c.suit = h.suit)
    if allSameSuit = false then { label := "Flush", points := 0 }
    else { label := "Flush", points := 4 }

def findKnobs (hand : List Card) (starter : Card) : ScorePart :=
  let jack := hand.find? fun c => decide (c.rank = "J" ∧ c.suit = starter.suit)
  { label := "His Nobs", points := if jack.isSome then 1 else 0 }

def scoreHand (hand : List Card) (starter : Card) : ScoreBreakdown :=
  let cards := hand ++ [starter]
  let parts := [findFifteens cards, findPairs cards, findRuns cards,
    findFlush hand starter, findKnobs hand starter]
  { total := (parts.map (·.points)).sum, parts := parts }

def scoreHandWithoutStarter (hand : List Card) : ScoreBreakdown :=
  let parts := [findFifteens hand, findPairs hand, findRuns hand,
    findFlushHandOnly hand]
  { total := (parts.map (·.points)).sum, parts := parts }

/-- The recursive closure of `chooseN`: buffer `b` holds the already chosen
elements; on reaching `size` the buffer is emitted, otherwise each remaining
element is tried in turn. -/
def chooseAux (size : ℕ) (b : List α) : List α → List (List α)
  | [] => if b.length = size then [b] else []
  | x :: xs =>
      if b.length = size then [b]
      else chooseAux size (b ++ [x]) xs ++ chooseAux size b xs

def chooseN (items : List α) (size : ℕ) : List (List α) := chooseAux size [] items

structure AverageBest where
  average : ℚ
  best : List StarterScore
deriving DecidableEq

def averageHandScores (hand : List Card) (starterPool : List Card) : AverageBest :=
  if starterPool.length = 0 then { average := 0, best := [] }
  else
    let scores := starterPool.map fun starter =>
      ({ card := starter, score := (scoreHand hand starter).total } : StarterScore)
    let total := (scores.map (·.score)).sum
    let best := (scores.insertionSort fun a b => b.score ≤ a.score).take 3
    { average := (total : ℚ) / (scores.length : ℚ), best := best }

/-- Inner two loops of `expectedCribValue`: `a` is `starterPool[i]`, the
current `b` runs over the cards after `a`; `A` is the pool before `a` and
`B` the pool strictly between `a` and `b`, so the starter loop over all
`k ≠ i, j` traverses exactly `A ++ B ++ C`. -/
def cribLoopInner (ourDiscards : List Card) (isDealer : Bool) (A : List Card)
    (a : Card) (B : List Card) : List Card → List ℕ
  | [] => []
  | b :: C =>
      (if isDealer = false ∧ (a.rank = "5" ∨ b.rank = "5" ∨ a.rank = b.rank) then []
       else (A ++ B ++ C).map fun starter =>
         (scoreHand (ourDiscards ++ [a, b]) starter).total)
      ++ cribLoopInner ourDiscards isDealer A a (B ++ [b]) C

/-- Outer loop of `expectedCribValue`: `A` is the already-visited prefix of
the pool (the cards before index `i`). -/
def cribLoopOuter (ourDiscards : List Card) (isDealer : Bool) (A : List Card) :
    List Card → List ℕ
  | [] => []
  | a :: rest =>
      cribLoopInner ourDiscards isDealer A a [] rest
      ++ cribLoopOuter ourDiscards isDealer (A ++ [a]) rest

/-- All crib scores accumulated by `expectedCribValue`'s triple loop, in
visit order; the source keeps their running `total` and `count`. -/
def cribScores (ourDiscards : List Card) (starterPool : List Card)
    (isDealer : Bool) : List ℕ :=
  cribLoopOuter ourDiscards isDealer [] starterPool

def expectedCribValue (ourDiscards : List Card) (starterPool : List Card)
    (isDealer : Bool) : ℚ :=
  if starterPool.length = 0 then 0
  else
    let scores := cribScores ourDiscards starterPool isDealer
    if scores.length = 0 then 0
    else (scores.sum : ℚ) / (scores.length : ℚ)

/-- The `starterPool` of `evaluateDiscards`: the 52-card deck minus the six
dealt cards (matched by id). -/
def starterPoolOf (sixCards : List Card) : List Card :=
  DECK.filter fun card =>
    !(sixCards.any fun picked => decide (picked.id = card.id))

/-- The body of the `keepCombos.map` closure in `evaluateDiscards`: the
suggestion built for one 4-card keep. -/
def suggestionFor (sixCards starterPool : List Card)
    (isDealer includeCrib : Bool) (keep : List Card) : DiscardSuggestion :=
  let discards := sixCards.filter fun card =>
    !(keep.any fun k => decide (k.id = card.id))
  let avg := averageHandScores keep starterPool
  let cribAverage :=
    if includeCrib then expectedCribValue discards starterPool isDealer else 0
  let expectedValue :=
    if includeCrib then
      if isDealer then avg.average + cribAverage else avg.average - cribAverage
    else avg.average
  { keep := keep, discards := discards, handAverage := avg.average,
    cribAverage := cribAverage, expectedValue := expectedValue,
    bestStarters := avg.best }

/-- The unsorted `results` array of `evaluateDiscards`: one suggestion per
4-of-6 keep combination, in `chooseN` enumeration order. -/
def discardResults (sixCards : List Card) (isDealer includeCrib : Bool) :
    List DiscardSuggestion :=
  (chooseN sixCards 4).map
    (suggestionFor sixCards (starterPoolOf sixCards) isDealer includeCrib)

def evaluateDiscards (sixCards : List Card) (isDealer : Bool)
    (includeCrib : Bool) : List DiscardSuggestion :=
  if sixCards.length ≠ 6 then []
  else
    ((discardResults sixCards isDealer includeCrib).insertionSort fun a b =>
      b.expectedValue ≤ a.expectedValue).take 3

/-- Convenience constructor for concrete deck cards (id = rank + suit symbol,
as in the source's `DECK` construction). -/
def mkCard (r : String) (v o : ℕ) (s : Suit) : Card := ⟨r, v, o, s, r ++ suitSym s⟩

/-! ### Specification-side definitions (comparison targets for the claims) -/

/-- All unordered pairs of elements of a list, each pair taken with its
first component earlier in the list (spec §4.4: "enumerate every unordered
pair {a,b} from unseenPool"). -/
def allPairs : List α → List (α × α)
  | [] => []
  | x :: xs => (xs.map fun y => (x, y)) ++ allPairs xs

/-- The pair-exclusion heuristic of the crib model, spec §4.4 step 3: a
non-dealer crib skips any pair containing a rank-5 card or two cards of
equal rank. -/
def cribPairExcluded (isDealer : Bool) (a b : Card) : Bool :=
  !isDealer &&
    (decide (a.rank = "5") || decide (b.rank = "5") || decide (a.rank = b.rank))

/-- The crib average as the specification words it: the arithmetic mean of
`scoreHand(discards ∪ {a,b}, c).total` over every surviving unordered pair
`{a,b}` of pool cards and every remaining pool card `c` (0 when no
combination survives). -/
def cribAverageSpec (ourDiscards : List Card) (pool : List Card)
    (isDealer : Bool) : ℚ :=
  let pairs := (allPairs pool).filter fun p => !(cribPairExcluded isDealer p.1 p.2)
  let entries := pairs.flatMap fun p =>
    (pool.filter fun c => decide (c ≠ p.1 ∧ c ≠ p.2)).map fun starter =>
      (scoreHand (ourDiscards ++ [p.1, p.2]) starter).total
  if entries.length = 0 then 0 else (entries.sum : ℚ) / (entries.length : ℚ)

/-- The spec's `minHandScore`: "minimum ScoreBreakdown.total over the unseen
pool" for a fixed keep (0 on an empty pool). -/
def minHandScoreSpec (keep pool : List Card) : ℕ :=
  ((pool.map fun s => (scoreHand keep s).total).min?).getD 0

/-- The spec's `handAverage`: "mean ScoreBreakdown.total of keep over every
card in the unseen pool" (0 on an empty pool). -/
def handAverageSpec (keep pool : List Card) : ℚ :=
  if pool.length = 0 then 0
  else ((pool.map fun s => (scoreHand keep s).total).sum : ℚ) / (pool.length : ℚ)

/-- The strongest reading of the claim that a returned `DiscardSuggestion`
"contains a minHandScore field": the embedded record mirrors the source's
`DiscardSuggestion` field for field and has no `minHandScore` field, so the
claim is read as: one of the suggestion's numeric components equals the
minimum hand score over the unseen pool. -/
def suggestionCarriesMin (six : List Card) (s : DiscardSuggestion) : Prop :=
  let m : ℚ := (minHandScoreSpec s.keep (starterPoolOf six) : ℚ)
  s.handAverage = m ∨ s.cribAverage = m ∨ s.expectedValue = m ∨
    ∃ st ∈ s.bestStarters, (st.score : ℚ) = m

/-- A fixed six-card deal (three pairs: 3♠ 3♥ 7♦ 7♣ K♠ K♥) used as a
concrete evaluation point: every 4-card keep from it contains a pair, so
every keep scores at least 2 against every starter. -/
def sampleDeal : List Card :=
  [mkCard "3" 3 3 .spades, mkCard "3" 3 3 .hearts, mkCard "7" 7 7 .diamonds,
   mkCard "7" 7 7 .clubs, mkCard "K" 10 13 .spades, mkCard "K" 10 13 .hearts]

/-! ### Order-index scoring (deck cards are determined by order and suit) -/

/-- The `value` a deck card of the given `order` carries (Ace = 1, faces =
10), as tabulated in `RANKS`. -/
def valueOfOrder (o : ℕ) : ℕ := if 10 ≤ o then 10 else o

/-- The `rank` label a deck card of the given `order` carries, as tabulated
in `RANKS`. -/
def labelOfOrder : ℕ → String
  | 1 => "A"
  | 2 => "2"
  | 3 => "3"
  | 4 => "4"
  | 5 => "5"
  | 6 => "6"
  | 7 => "7"
  | 8 => "8"
  | 9 => "9"
  | 10 => "10"
  | 11 => "J"
  | 12 => "Q"
  | 13 => "K"
  | _ => ""

/-- Occurrence counts of an order list (mirrors `cardCounts` after mapping
cards to their orders). -/
def countsIdx (os : List ℕ) (o : ℕ) : ℕ := os.countP fun x => decide (x = o)

/-- All subsequences of a list, in `List.sublists'` order, by structural
recursion (Mathlib's `sublists'` is implemented via arrays, which the
kernel cannot evaluate efficiently). -/
def sublistsR : List α → List (List α)
  | [] => [[]]
  | a :: l => sublistsR l ++ (sublistsR l).map (a :: ·)

/-- `findFifteens` points as a function of the order list of deck cards. -/
def fifteensIdx (os : List ℕ) : ℕ :=
  ((sublistsR os).countP fun s =>
    decide ((s.map valueOfOrder).sum = 15 ∧ 2 ≤ s.length)) * 2

/-- `findPairs` points as a function of the order list of deck cards. -/
def pairsIdx (os : List ℕ) : ℕ :=
  ((firstDedup os).map fun o =>
    let c := countsIdx os o
    if 2 ≤ c then (c * (c - 1) / 2) * 2 else 0).sum

/-- The fuel `findRuns` supplies to the run chain walk, as a function of the
order list. -/
def runsFuel (os : List ℕ) : ℕ := (os.foldr max 0) + 2

/-- `findRuns` points as a function of the order list of deck cards. -/
def runsIdxPts (os : List ℕ) : ℕ :=
  (runScan (countsIdx os) (runsFuel os) 14 1 0 0).2

/-- Fifteens + Pairs + Runs points of a 5-card set, as a function of its
order list. -/
def FPRidx (os : List ℕ) : ℕ := fifteensIdx os + pairsIdx os + runsIdxPts os

/-- Number of distinct orders present. -/
def distinctCount (os : List ℕ) : ℕ := (firstDedup os).length

/-- Upper bound on the Flush points of any hand/starter split of a 5-card
set with the given orders: a 4-card flush needs 4 distinct orders in hand
(distinct same-suit deck cards have distinct orders), a 5-card flush needs
all 5 distinct. -/
def flushCap (os : List ℕ) : ℕ :=
  if 5 ≤ distinctCount os then 5
  else if 4 ≤ distinctCount os then 4 else 0

/-- Upper bound on His Nobs: a point needs a Jack (order 11) in hand. -/
def nobsCap (os : List ℕ) : ℕ := if 11 ∈ os then 1 else 0

/-- The maximal contiguous ranges of orders with non-zero count, per the
spec's Runs rule: a range starts at `i` when `counts (i-1) = 0 ≠ counts i`,
and extends over the consecutive orders with non-zero count. -/
def runRanges (counts : ℕ → ℕ) (fuel : ℕ) : List (ℕ × ℕ) :=
  (List.range' 1 13).filterMap fun i =>
    if counts (i - 1) = 0 ∧ counts i ≠ 0 then some (i, chainLen counts i fuel)
    else none

/-- The Runs points as the specification words them: every maximal
contiguous range of length L ≥ 3 scores `L · (product of per-order
multiplicities)`, but only the range(s) achieving the overall best length
score, and ties at the best length sum. -/
def specRunPoints (counts : ℕ → ℕ) (fuel : ℕ) : ℕ :=
  let rs := runRanges counts fuel
  let best := (rs.map (·.2)).foldr max 0
  ((rs.filter fun r => decide (r.2 = best ∧ 3 ≤ r.2)).map fun r =>
    r.2 * chainProd counts r.1 fuel).sum

/-- All non-decreasing lists of length `n` over orders `lo..13`: the
canonical representatives of rank multisets of 5 deck cards. -/
def sortedListsFrom (lo : ℕ) : ℕ → List (List ℕ)
  | 0 => [[]]
  | n + 1 => (List.range' lo (14 - lo)).flatMap fun r =>
      (sortedListsFrom r n).map (r :: ·)

/-! ### The subset enumerator and `findFifteens` -/

/-- `genAux` counting lemma: prepending the buffer itself, the buffers
emitted from `(b, l)` are exactly `b ++ s` for the subsequences `s` of
`l`. -/
theorem genAux_cons_countP (l : List α) :
    ∀ (b : List α) (p : List α → Bool),
      (b :: genAux b l).countP p = l.sublists'.countP fun s => p (b ++ s) := by
  induction l with
  | nil =>
      intro b p
      simp [genAux, List.sublists', List.countP_cons]
  | cons x xs ih =>
      intro b p
      have h1 := ih b p
      have h2 := ih (b ++ [x]) p
      simp only [genAux, List.countP_cons, List.countP_append,
        List.sublists'_cons, List.countP_map] at *
      have hcomp : ((fun s => p (b ++ s)) ∘ List.cons x) =
          fun s => p (b ++ [x] ++ s) := by
        funext s
        simp
      rw [hcomp]
      omega

/-- `generateCombos` counts a predicate that rejects the empty list exactly
as the non-empty subsequences do. -/
theorem generateCombos_countP (l : List α) (p : List α → Bool)
    (hp : p [] = false) :
    (generateCombos l).countP p = l.sublists'.countP p := by
  have h := genAux_cons_countP l [] p
  simp only [List.countP_cons, hp, List.nil_append] at h
  simpa [generateCombos] using h

/-- The points of `findFifteens`: twice the number of subsequences of the
card list with at least two cards whose values sum to 15. -/
theorem findFifteens_points (cards : List Card) :
    (findFifteens cards).points =
      (cards.sublists'.countP fun s =>
        decide ((s.map (·.value)).sum = 15 ∧ 2 ≤ s.length)) * 2 := by
  have h := generateCombos_countP cards
    (fun s => decide ((s.map (·.value)).sum = 15 ∧ 2 ≤ s.length)) (by decide)
  simp only [findFifteens]
  rw [h]

/-! ### Permutation invariance of the scoring parts -/

/-- Counting a permutation-invariant predicate over all subsequences is
itself permutation invariant (via the multiset powerset). -/
theorem sublists'_countP_perm {l l' : List α} (h : l.Perm l')
    (p : List α → Bool) (hp : ∀ s t : List α, s.Perm t → p s = p t) :
    l.sublists'.countP p = l'.sublists'.countP p := by
  have key : ∀ m : List α, m.sublists'.countP p =
      (m.sublists'.map (Multiset.ofList)).countP fun ms => p ms.toList := by
    intro m
    rw [List.countP_map]
    apply List.countP_congr
    intro s _
    have : p ((Multiset.ofList s).toList) = p s := by
      apply hp
      have := Multiset.coe_toList (Multiset.ofList s)
      exact Multiset.coe_eq_coe.mp this
    simp [Function.comp, this]
  rw [key l, key l']
  apply List.Perm.countP_eq
  apply Multiset.coe_eq_coe.mp
  have hl : (↑l : Multiset α) = ↑l' := Multiset.coe_eq_coe.mpr h
  calc (↑(l.sublists'.map Multiset.ofList) : Multiset (Multiset α))
      = (↑l : Multiset α).powerset := (Multiset.powerset_coe' l).symm
    _ = (↑l' : Multiset α).powerset := by rw [hl]
    _ = ↑(l'.sublists'.map Multiset.ofList) := Multiset.powerset_coe' l'

theorem findFifteens_perm {l l' : List Card} (h : l.Perm l') :
    findFifteens l = findFifteens l' := by
  have : (findFifteens l).points = (findFifteens l').points := by
    rw [findFifteens_points, findFifteens_points]
    congr 1
    apply sublists'_countP_perm h
    intro s t hst
    have hsum : (s.map (·.value)).sum = (t.map (·.value)).sum :=
      (hst.map (·.value)).sum_eq
    have hlen : s.length = t.length := hst.length_eq
    simp [hsum, hlen]
  cases hfl : findFifteens l
  cases hfl' : findFifteens l'
  simp_all [findFifteens]

theorem mem_firstDedupAux [DecidableEq α] {a : α} : ∀ (l seen : List α),
    a ∈ firstDedupAux seen l ↔ a ∈ l ∧ a ∉ seen := by
  intro l
  induction l with
  | nil => simp [firstDedupAux]
  | cons x xs ih =>
      intro seen
      by_cases hx : x ∈ seen
      · rw [firstDedupAux, if_pos hx, ih]
        constructor
        · rintro ⟨h1, h2⟩
          exact ⟨List.mem_cons_of_mem x h1, h2⟩
        · rintro ⟨h1, h2⟩
          rcases List.mem_cons.mp h1 with h | h
          · exact absurd (h ▸ hx) h2
          · exact ⟨h, h2⟩
      · rw [firstDedupAux, if_neg hx]
        simp only [List.mem_cons, ih (seen ++ [x]), List.mem_append,
          List.mem_singleton]
        constructor
        · rintro (h | ⟨h1, h2⟩)
          · exact ⟨Or.inl h, h ▸ hx⟩
          · exact ⟨Or.inr h1, fun hs => h2 (Or.inl hs)⟩
        · rintro ⟨h1 | h1, h2⟩
          · exact Or.inl h1
          · by_cases hax : a = x
            · exact Or.inl hax
            · refine Or.inr ⟨h1, fun hs => ?_⟩
              rcases hs with hs | hs | hs
              · exact h2 hs
              · exact hax hs
              · simp at hs

theorem mem_firstDedup [DecidableEq α] {a : α} {l : List α} :
    a ∈ firstDedup l ↔ a ∈ l := by
  rw [firstDedup, mem_firstDedupAux]
  simp

theorem firstDedupAux_nodup [DecidableEq α] : ∀ (l seen : List α),
    (firstDedupAux seen l).Nodup := by
  intro l
  induction l with
  | nil => intro seen; simp [firstDedupAux]
  | cons x xs ih =>
      intro seen
      by_cases hx : x ∈ seen
      · rw [firstDedupAux, if_pos hx]
        exact ih seen
      · rw [firstDedupAux, if_neg hx]
        refine List.Nodup.cons ?_ (ih (seen ++ [x]))
        intro hmem
        have := (mem_firstDedupAux xs (seen ++ [x])).mp hmem
        exact this.2 (by simp)

theorem firstDedup_nodup [DecidableEq α] (l : List α) : (firstDedup l).Nodup :=
  firstDedupAux_nodup l []

theorem firstDedup_perm [DecidableEq α] {l l' : List α} (h : l.Perm l') :
    (firstDedup l).Perm (firstDedup l') := by
  apply List.perm_of_nodup_nodup_toFinset_eq (firstDedup_nodup l)
    (firstDedup_nodup l')
  apply Finset.ext
  intro a
  simp only [List.mem_toFinset, mem_firstDedup]
  exact h.mem_iff

theorem findPairs_perm {l l' : List Card} (h : l.Perm l') :
    findPairs l = findPairs l' := by
  unfold findPairs
  have hcount : ∀ r, (l.countP fun card => decide (card.rank = r)) =
      l'.countP fun card => decide (card.rank = r) := fun r =>
    h.countP_eq _
  have hded : (firstDedup (l.map (·.rank))).Perm
      (firstDedup (l'.map (·.rank))) := firstDedup_perm (h.map _)
  have hmap : ((firstDedup (l.map (·.rank))).map fun r =>
        let c := l.countP fun card => decide (card.rank = r)
        if 2 ≤ c then (c * (c - 1) / 2) * 2 else 0).Perm
      ((firstDedup (l'.map (·.rank))).map fun r =>
        let c := l'.countP fun card => decide (card.rank = r)
        if 2 ≤ c then (c * (c - 1) / 2) * 2 else 0) := by
    have : (fun r =>
        let c := l.countP fun card => decide (card.rank = r)
        if 2 ≤ c then (c * (c - 1) / 2) * 2 else 0) = fun r =>
        let c := l'.countP fun card => decide (card.rank = r)
        if 2 ≤ c then (c * (c - 1) / 2) * 2 else 0 := by
      funext r
      simp only [hcount]
    rw [this]
    exact hded.map _
  simp only [hmap.sum_eq]

theorem cardCounts_perm {l l' : List Card} (h : l.Perm l') :
    cardCounts l = cardCounts l' := by
  funext o
  exact h.countP_eq _

theorem findRuns_perm {l l' : List Card} (h : l.Perm l') :
    findRuns l = findRuns l' := by
  unfold findRuns
  rw [cardCounts_perm h]
  have : ((l.map (·.order)).foldr max 0) = (l'.map (·.order)).foldr max 0 := by
    haveI : LeftCommutative (max : ℕ → ℕ → ℕ) := ⟨fun a b c => by omega⟩
    exact List.Perm.foldr_eq (f := max) (h.map (·.order)) 0
  rw [this]

theorem findFlush_perm {hand hand' : List Card} (h : hand.Perm hand')
    (starter : Card) : findFlush hand starter = findFlush hand' starter := by
  match hand, hand' with
  | [], [] => rfl
  | [], b :: t' => exact absurd h.symm.eq_nil (List.cons_ne_nil b t')
  | a :: t, [] => exact absurd h.eq_nil (List.cons_ne_nil a t)
  | a :: t, b :: t' =>
    by_cases hall : ((a :: t).all fun c => decide (c.suit = a.suit)) = true
    · have hb : b.suit = a.suit := by
        have hbmem : b ∈ a :: t := h.mem_iff.mpr (List.mem_cons_self b t')
        simpa using List.all_eq_true.mp hall b hbmem
      have hall' : ((b :: t').all fun c => decide (c.suit = b.suit)) = true := by
        apply List.all_eq_true.mpr
        intro c hc
        have := List.all_eq_true.mp hall c (h.mem_iff.mpr hc)
        simp only [decide_eq_true_eq] at this ⊢
        rw [this, hb]
      have hnone : ∀ x ∈ t', x.suit = a.suit := by
        intro x hx
        have := List.all_eq_true.mp hall' x (List.mem_cons_of_mem b hx)
        simp only [decide_eq_true_eq] at this
        rw [this, hb]
      have hex : ¬ ∃ x ∈ t', ¬ x.suit = a.suit := by
        rintro ⟨x, hx, hne⟩
        exact hne (hnone x hx)
      simp [findFlush, hall, hall', hb, hex]
    · have hall' : ¬ ((b :: t').all fun c => decide (c.suit = b.suit)) = true := by
        intro hall'
        apply hall
        have ha : a.suit = b.suit := by
          have hamem : a ∈ b :: t' := h.mem_iff.mp (List.mem_cons_self a t)
          simpa using List.all_eq_true.mp hall' a hamem
        apply List.all_eq_true.mpr
        intro c hc
        have := List.all_eq_true.mp hall' c (h.mem_iff.mp hc)
        simp only [decide_eq_true_eq] at this ⊢
        rw [this, ha]
      rw [Bool.not_eq_true] at hall hall'
      simp [findFlush, hall, hall']

theorem findKnobs_perm {hand hand' : List Card} (h : hand.Perm hand')
    (starter : Card) : findKnobs hand starter = findKnobs hand' starter := by
  simp only [findKnobs]
  have hiff : ((hand.find? fun c =>
        decide (c.rank = "J" ∧ c.suit = starter.suit)).isSome = true) ↔
      ((hand'.find? fun c =>
        decide (c.rank = "J" ∧ c.suit = starter.suit)).isSome = true) := by
    rw [List.find?_isSome, List.find?_isSome]
    constructor
    · rintro ⟨x, hx, hpx⟩
      exact ⟨x, h.mem_iff.mp hx, hpx⟩
    · rintro ⟨x, hx, hpx⟩
      exact ⟨x, h.mem_iff.mpr hx, hpx⟩
  cases ha : (hand.find? fun c =>
      decide (c.rank = "J" ∧ c.suit = starter.suit)).isSome <;>
    cases hb : (hand'.find? fun c =>
        decide (c.rank = "J" ∧ c.suit = starter.suit)).isSome <;>
    simp_all
  · obtain ⟨x, hx, h1, h2⟩ := hb
    exact ha x (h.mem_iff.mpr hx) h1 h2
  · obtain ⟨x, hx, h1, h2⟩ := ha
    exact hb x hx h1 h2

theorem scoreHand_hand_perm {hand hand' : List Card} (h : hand.Perm hand')
    (starter : Card) : scoreHand hand starter = scoreHand hand' starter := by
  have hc : (hand ++ [starter]).Perm (hand' ++ [starter]) := h.append_right _
  simp only [scoreHand, findFifteens_perm hc, findPairs_perm hc,
    findRuns_perm hc, findFlush_perm h starter, findKnobs_perm h starter]

/-! ### Claim C2 -/

/-- C2 counterexample: the same unordered 5-card set
{A♠, 2♠, 3♠, 4♠, 5♥} scores 11 when 5♥ is the starter (4-card spade flush)
but 7 when 4♠ is the starter (no flush), so exchanging which card plays the
starter role does change `scoreHand(...).total`. -/
theorem C2_counterexample :
    ([mkCard "A" 1 1 .spades, mkCard "2" 2 2 .spades, mkCard "3" 3 3 .spades,
        mkCard "4" 4 4 .spades] ++ [mkCard "5" 5 5 .hearts]).Perm
      ([mkCard "A" 1 1 .spades, mkCard "2" 2 2 .spades, mkCard "3" 3 3 .spades,
        mkCard "5" 5 5 .hearts] ++ [mkCard "4" 4 4 .spades]) ∧
    (scoreHand [mkCard "A" 1 1 .spades, mkCard "2" 2 2 .spades,
        mkCard "3" 3 3 .spades, mkCard "4" 4 4 .spades]
        (mkCard "5" 5 5 .hearts)).total ≠
      (scoreHand [mkCard "A" 1 1 .spades, mkCard "2" 2 2 .spades,
        mkCard "3" 3 3 .spades, mkCard "5" 5 5 .hearts]
        (mkCard "4" 4 4 .spades)).total := by
  constructor
  · decide
  · decide

/-- C2 (amended): permuting the 4 hand cards never changes
`scoreHand(hand, starter)` (the whole breakdown, hence the total); the
original claim's further assertion — that exchanging which of the 5 cards
plays the starter role also leaves the total unchanged — is false (see the
counterexample): `findFlush` and `findKnobs` treat hand and starter
asymmetrically. -/
theorem C2_hand_permutation_invariance (hand hand' : List Card)
    (starter : Card) (h : hand.Perm hand') :
    (scoreHand hand starter).total = (scoreHand hand' starter).total := by
  rw [scoreHand_hand_perm h]

/-- Witness for C2: a concrete permuted pair of hands with equal totals. -/
theorem C2_hand_permutation_invariance_witness :
    ([mkCard "7" 7 7 .spades, mkCard "8" 8 8 .hearts].Perm
      [mkCard "8" 8 8 .hearts, mkCard "7" 7 7 .spades]) ∧
    (scoreHand [mkCard "7" 7 7 .spades, mkCard "8" 8 8 .hearts]
        (mkCard "K" 10 13 .clubs)).total =
      (scoreHand [mkCard "8" 8 8 .hearts, mkCard "7" 7 7 .spades]
        (mkCard "K" 10 13 .clubs)).total :=
  ⟨by decide, C2_hand_permutation_invariance _ _ _ (by decide)⟩

/-! ### Claim C8 -/

/-- C8: for every input list whose length is not exactly 6,
`evaluateDiscards` returns the empty suggestion list (the embedding is a
total function, so no error is raised). -/
theorem C8_wrong_arity_empty (sixCards : List Card) (isDealer includeCrib : Bool)
    (h : sixCards.length ≠ 6) :
    evaluateDiscards sixCards isDealer includeCrib = [] := by
  unfold evaluateDiscards
  rw [if_pos h]

/-- Witness for C8: a 5-card input yields the empty list. -/
theorem C8_wrong_arity_empty_witness :
    (([mkCard "A" 1 1 .spades, mkCard "2" 2 2 .spades, mkCard "3" 3 3 .spades,
        mkCard "4" 4 4 .spades, mkCard "5" 5 5 .hearts] : List Card).length ≠ 6) ∧
    evaluateDiscards [mkCard "A" 1 1 .spades, mkCard "2" 2 2 .spades,
        mkCard "3" 3 3 .spades, mkCard "4" 4 4 .spades, mkCard "5" 5 5 .hearts]
      true true = [] :=
  ⟨by decide, C8_wrong_arity_empty _ true true (by decide)⟩

/-! ### Claim C10 -/

/-- C10: on any input whose length differs from 4,
`scoreHandWithoutStarter` still returns a breakdown: the Flush part is
`0` points (the length guard of `findFlushHandOnly` fires), while
Fifteens, Pairs and Runs are scored literally on the given cards. -/
theorem C10_wrong_arity_flush_zero (hand : List Card) (h : hand.length ≠ 4) :
    scoreHandWithoutStarter hand =
      { total := (findFifteens hand).points + (findPairs hand).points +
          (findRuns hand).points,
        parts := [findFifteens hand, findPairs hand, findRuns hand,
          { label := "Flush", points := 0 }] } := by
  have hfl : findFlushHandOnly hand = { label := "Flush", points := 0 } := by
    unfold findFlushHandOnly
    rw [if_pos h]
  simp [scoreHandWithoutStarter, hfl]
  omega

/-- Witness for C10: a 3-card hand (A♠ 2♠ 3♠) is scored literally with a
zero Flush part. -/
theorem C10_wrong_arity_flush_zero_witness :
    (([mkCard "A" 1 1 .spades, mkCard "2" 2 2 .spades,
        mkCard "3" 3 3 .spades] : List Card).length ≠ 4) ∧
    scoreHandWithoutStarter [mkCard "A" 1 1 .spades, mkCard "2" 2 2 .spades,
        mkCard "3" 3 3 .spades] =
      { total := (findFifteens [mkCard "A" 1 1 .spades, mkCard "2" 2 2 .spades,
            mkCard "3" 3 3 .spades]).points +
          (findPairs [mkCard "A" 1 1 .spades, mkCard "2" 2 2 .spades,
            mkCard "3" 3 3 .spades]).points +
          (findRuns [mkCard "A" 1 1 .spades, mkCard "2" 2 2 .spades,
            mkCard "3" 3 3 .spades]).points,
        parts := [findFifteens [mkCard "A" 1 1 .spades, mkCard "2" 2 2 .spades,
            mkCard "3" 3 3 .spades],
          findPairs [mkCard "A" 1 1 .spades, mkCard "2" 2 2 .spades,
            mkCard "3" 3 3 .spades],
          findRuns [mkCard "A" 1 1 .spades, mkCard "2" 2 2 .spades,
            mkCard "3" 3 3 .spades],
          { label := "Flush", points := 0 }] } :=
  ⟨by decide, C10_wrong_arity_flush_zero _ (by decide)⟩

/-! ### Claim C9 -/

/-- C9: on the empty unseen pool `averageHandScores` returns average `0`
with an empty best-starter list and `expectedCribValue` returns `0`; and
for every pool both functions' results satisfy `result * count = sum`
(the division is guarded: it only ever happens by a non-zero count). -/
theorem C9_empty_pool_guarded_division (hand d : List Card) (dealer : Bool) :
    (averageHandScores hand []).average = 0 ∧
    (averageHandScores hand []).best = [] ∧
    expectedCribValue d [] dealer = 0 ∧
    (∀ pool : List Card,
      (averageHandScores hand pool).average * (pool.length : ℚ) =
        (((pool.map fun s => (scoreHand hand s).total).sum : ℕ) : ℚ)) ∧
    (∀ pool : List Card,
      expectedCribValue d pool dealer *
          ((cribScores d pool dealer).length : ℚ) =
        (((cribScores d pool dealer).sum : ℕ) : ℚ)) := by
  refine ⟨rfl, rfl, rfl, ?_, ?_⟩
  · intro pool
    unfold averageHandScores
    by_cases hp : pool.length = 0
    · rw [if_pos hp]
      rw [List.length_eq_zero.mp hp]
      simp
    · rw [if_neg hp]
      simp only []
      rw [List.map_map, List.length_map]
      have hne : ((pool.length : ℚ)) ≠ 0 := by
        exact_mod_cast hp
      rw [div_mul_cancel₀ _ hne]
      rw [Nat.cast_list_sum, List.map_map]
      rfl
  · intro pool
    unfold expectedCribValue
    by_cases hp : pool.length = 0
    · rw [if_pos hp]
      have : pool = [] := List.length_eq_zero.mp hp
      subst this
      simp [cribScores, cribLoopOuter]
    · rw [if_neg hp]
      by_cases hs : (cribScores d pool dealer).length = 0
      · rw [if_pos hs]
        rw [List.length_eq_zero.mp hs]
        simp
      · rw [if_neg hs]
        have hne : (((cribScores d pool dealer).length : ℚ)) ≠ 0 := by
          exact_mod_cast hs
        rw [div_mul_cancel₀ _ hne]

/-! ### Claim C6 -/

/-- The count of `findFifteens` as a count over the multiset powerset. -/
theorem findFifteens_points_powerset (cards : List Card) :
    (findFifteens cards).points =
      2 * Multiset.countP
        (fun m => (Multiset.map (fun c : Card => c.value) m).sum = 15 ∧
          2 ≤ Multiset.card m)
        (Multiset.powerset (↑cards : Multiset Card)) := by
  rw [findFifteens_points, Multiset.powerset_coe', Multiset.coe_countP,
    List.countP_map, Nat.mul_comm]
  apply congrArg (2 * ·)
  apply List.countP_congr
  intro s _
  simp [Function.comp, Multiset.map_coe, Multiset.sum_coe, Multiset.coe_card]

/-- C6: the Fifteens part of `scoreHand` (its first score part) awards
exactly 2 points per distinct subset of the 5-card set with at least 2
cards whose values sum to 15: its points are 2 times the number of such
subsets.  Subsets are counted via the multiset powerset, which is
duplicate-free because the 5 cards are distinct. -/
theorem C6_fifteens_two_points_per_subset (hand : List Card) (starter : Card)
    (h : (hand ++ [starter]).Nodup) :
    (scoreHand hand starter).parts.head? =
      some (findFifteens (hand ++ [starter])) ∧
    (findFifteens (hand ++ [starter])).points =
      2 * Multiset.countP
        (fun m => (Multiset.map (fun c : Card => c.value) m).sum = 15 ∧
          2 ≤ Multiset.card m)
        (Multiset.powerset (↑(hand ++ [starter]) : Multiset Card)) ∧
    (Multiset.powerset (↑(hand ++ [starter]) : Multiset Card)).Nodup :=
  ⟨rfl, findFifteens_points_powerset _,
    Multiset.Nodup.powerset ((Multiset.coe_nodup).mpr h)⟩

/-- Witness for C6 at the concrete 5-card set {7♠, 8♠, 9♥, 6♦, A♣}. -/
theorem C6_fifteens_two_points_per_subset_witness :
    (([mkCard "7" 7 7 .spades, mkCard "8" 8 8 .spades, mkCard "9" 9 9 .hearts,
        mkCard "6" 6 6 .diamonds] ++ [mkCard "A" 1 1 .clubs]).Nodup) ∧
    (findFifteens ([mkCard "7" 7 7 .spades, mkCard "8" 8 8 .spades,
        mkCard "9" 9 9 .hearts, mkCard "6" 6 6 .diamonds] ++
        [mkCard "A" 1 1 .clubs])).points =
      2 * Multiset.countP
        (fun m => (Multiset.map (fun c : Card => c.value) m).sum = 15 ∧
          2 ≤ Multiset.card m)
        (Multiset.powerset
          (↑([mkCard "7" 7 7 .spades, mkCard "8" 8 8 .spades,
            mkCard "9" 9 9 .hearts, mkCard "6" 6 6 .diamonds] ++
            [mkCard "A" 1 1 .clubs]) : Multiset Card)) :=
  ⟨by decide,
    (C6_fifteens_two_points_per_subset _ _ (by decide)).2.1⟩

/-! ### Claim C4 -/

theorem cribPairExcluded_iff (dealer : Bool) (a b : Card) :
    cribPairExcluded dealer a b = true ↔
      dealer = false ∧ (a.rank = "5" ∨ b.rank = "5" ∨ a.rank = b.rank) := by
  cases dealer <;> simp [cribPairExcluded, or_assoc]

/-- In a duplicate-free pool `A ++ a :: (B ++ b :: C)`, filtering out the
values `a` and `b` removes exactly the two positions, leaving
`A ++ (B ++ C)`. -/
theorem filter_pair_removal {A B C : List Card} {a b : Card}
    (h : (A ++ a :: (B ++ b :: C)).Nodup) :
    ((A ++ a :: (B ++ b :: C)).filter fun c => decide (c ≠ a ∧ c ≠ b)) =
      A ++ (B ++ C) := by
  obtain ⟨hA, hrest, hdisjA⟩ := List.nodup_append.mp h
  obtain ⟨haBC, hBC⟩ := List.nodup_cons.mp hrest
  obtain ⟨hB, hbC, hdisjB⟩ := List.nodup_append.mp hBC
  obtain ⟨hbC', hC⟩ := List.nodup_cons.mp hbC
  have hamem : a ∈ a :: (B ++ b :: C) := List.mem_cons_self _ _
  have hbmem : b ∈ a :: (B ++ b :: C) := by
    apply List.mem_cons_of_mem
    exact List.mem_append_right _ (List.mem_cons_self _ _)
  rw [List.filter_append, List.filter_cons]
  have haneg : (decide (a ≠ a ∧ a ≠ b)) = false := by simp
  rw [haneg]
  simp only [Bool.false_eq_true, if_false]
  rw [List.filter_append, List.filter_cons]
  have hbneg : (decide (b ≠ a ∧ b ≠ b)) = false := by simp
  rw [hbneg]
  simp only [Bool.false_eq_true, if_false]
  have hAid : (A.filter fun c => decide (c ≠ a ∧ c ≠ b)) = A := by
    apply List.filter_eq_self.mpr
    intro c hc
    have h1 : c ≠ a := fun he => (List.disjoint_left.mp hdisjA) hc (he ▸ hamem)
    have h2 : c ≠ b := fun he => (List.disjoint_left.mp hdisjA) hc (he ▸ hbmem)
    simp [h1, h2]
  have hBid : (B.filter fun c => decide (c ≠ a ∧ c ≠ b)) = B := by
    apply List.filter_eq_self.mpr
    intro c hc
    have h1 : c ≠ a := fun he =>
      haBC (List.mem_append_left _ (he ▸ hc))
    have h2 : c ≠ b := fun he =>
      (List.disjoint_left.mp hdisjB) hc (he ▸ List.mem_cons_self _ _)
    simp [h1, h2]
  have hCid : (C.filter fun c => decide (c ≠ a ∧ c ≠ b)) = C := by
    apply List.filter_eq_self.mpr
    intro c hc
    have h1 : c ≠ a := fun he =>
      haBC (List.mem_append_right _ (List.mem_cons_of_mem _ (he ▸ hc)))
    have h2 : c ≠ b := fun he => hbC' (he ▸ hc)
    simp [h1, h2]
  rw [hAid, hBid, hCid]

/-- The inner two loops of `expectedCribValue` produce, for the fixed first
card `a`, exactly the spec-side scores of the pairs `(a, b)` with `b`
ranging over the remaining suffix, each paired with every other pool card
as starter. -/
theorem cribLoopInner_spec (d : List Card) (dealer : Bool) (a : Card) :
    ∀ (C B A : List Card), (A ++ a :: (B ++ C)).Nodup →
      cribLoopInner d dealer A a B C =
        C.flatMap fun b =>
          if cribPairExcluded dealer a b = true then []
          else ((A ++ a :: (B ++ C)).filter fun c =>
              decide (c ≠ a ∧ c ≠ b)).map fun starter =>
            (scoreHand (d ++ [a, b]) starter).total := by
  intro C
  induction C with
  | nil => intro B A h; rfl
  | cons b C' ih =>
      intro B A h
      rw [cribLoopInner, List.flatMap_cons]
      have hassoc : A ++ a :: (B ++ b :: C') =
          A ++ a :: ((B ++ [b]) ++ C') := by simp
      congr 1
      · by_cases hskip :
            dealer = false ∧ (a.rank = "5" ∨ b.rank = "5" ∨ a.rank = b.rank)
        · rw [if_pos hskip, if_pos ((cribPairExcluded_iff dealer a b).mpr hskip)]
        · rw [if_neg hskip]
          rw [if_neg (fun hx => hskip ((cribPairExcluded_iff dealer a b).mp hx))]
          rw [filter_pair_removal h]
          rw [List.append_assoc]
      · rw [ih (B ++ [b]) A (hassoc ▸ h)]
        have hbc : (B ++ [b]) ++ C' = B ++ b :: C' := by simp
        rw [hbc]

/-- The full triple loop of `expectedCribValue` over a duplicate-free pool
equals the spec-side enumeration over all unordered pairs of the remaining
suffix, with the starters drawn from the whole pool minus the pair. -/
theorem cribLoopOuter_spec (d : List Card) (dealer : Bool) :
    ∀ (rest A : List Card), (A ++ rest).Nodup →
      cribLoopOuter d dealer A rest =
        (allPairs rest).flatMap fun p =>
          if cribPairExcluded dealer p.1 p.2 = true then []
          else ((A ++ rest).filter fun c => decide (c ≠ p.1 ∧ c ≠ p.2)).map
            fun starter => (scoreHand (d ++ [p.1, p.2]) starter).total := by
  intro rest
  induction rest with
  | nil => intro A h; simp [cribLoopOuter, allPairs]
  | cons a rest' ih =>
      intro A h
      rw [cribLoopOuter, allPairs, List.flatMap_append, List.flatMap_map]
      congr 1
      · have hpool : A ++ a :: ([] ++ rest') = A ++ a :: rest' := by simp
        rw [cribLoopInner_spec d dealer a rest' [] A (by simpa using h)]
        rw [hpool]
      · have hpool : (A ++ [a]) ++ rest' = A ++ a :: rest' := by simp
        rw [ih (A ++ [a]) (by rw [hpool]; exact h), hpool]

/-- Pushing an if-guard producing `[]` into a filter. -/
theorem flatMap_if_guard (l : List α) (P : α → Bool) (f : α → List β) :
    (l.flatMap fun x => if P x = true then [] else f x) =
      (l.filter fun x => !(P x)).flatMap f := by
  induction l with
  | nil => rfl
  | cons x xs ih =>
      rw [List.flatMap_cons, List.filter_cons]
      by_cases hx : P x = true
      · simp [hx, ih]
      · have hx' : P x = false := by
          cases hPx : P x
          · rfl
          · exact absurd hPx hx
        simp [hx', ih]

/-- C4: on a duplicate-free pool, `expectedCribValue` is exactly the
spec-side crib average: the mean of `scoreHand(discards ∪ {a,b}, c).total`
over every unordered pool pair `{a,b}` surviving the exclusion heuristic
(non-dealer: no rank-5 card and no equal ranks; dealer: no exclusion at
all) and every remaining pool card `c` as starter. -/
theorem C4_crib_average_heuristic (ourDiscards pool : List Card)
    (isDealer : Bool) (h : pool.Nodup) :
    expectedCribValue ourDiscards pool isDealer =
      cribAverageSpec ourDiscards pool isDealer ∧
    ((allPairs pool).filter fun p => !(cribPairExcluded true p.1 p.2)) =
      allPairs pool := by
  constructor
  · have hscores : cribScores ourDiscards pool isDealer =
        ((allPairs pool).filter fun p =>
            !(cribPairExcluded isDealer p.1 p.2)).flatMap fun p =>
          (pool.filter fun c => decide (c ≠ p.1 ∧ c ≠ p.2)).map fun starter =>
            (scoreHand (ourDiscards ++ [p.1, p.2]) starter).total := by
      rw [cribScores, cribLoopOuter_spec ourDiscards isDealer pool [] (by simpa using h)]
      rw [← flatMap_if_guard]
      rfl
    rw [expectedCribValue, cribAverageSpec]
    simp only [hscores]
    by_cases hp : pool.length = 0
    · rw [if_pos hp]
      have : pool = [] := List.length_eq_zero.mp hp
      subst this
      simp [allPairs]
    · rw [if_neg hp]
  · apply List.filter_eq_self.mpr
    intro p _
    simp [cribPairExcluded]

/-- Witness for C4 on the duplicate-free 4-card pool
{2♠, 5♥, 7♦, 7♣}: the loop value and the spec-side mean coincide. -/
theorem C4_crib_average_heuristic_witness :
    ([mkCard "2" 2 2 .spades, mkCard "5" 5 5 .hearts, mkCard "7" 7 7 .diamonds,
        mkCard "7" 7 7 .clubs] : List Card).Nodup ∧
    expectedCribValue [mkCard "A" 1 1 .spades]
        [mkCard "2" 2 2 .spades, mkCard "5" 5 5 .hearts,
          mkCard "7" 7 7 .diamonds, mkCard "7" 7 7 .clubs] false =
      cribAverageSpec [mkCard "A" 1 1 .spades]
        [mkCard "2" 2 2 .spades, mkCard "5" 5 5 .hearts,
          mkCard "7" 7 7 .diamonds, mkCard "7" 7 7 .clubs] false :=
  ⟨by decide,
    (C4_crib_average_heuristic _ _ false (by decide)).1⟩

/-! ### Claim C7: combinatorics of `chooseN` and the solver output -/

/-- `chooseAux` emits, in some order, `b ++ s` for every subsequence `s` of
the remaining list of the missing length. -/
theorem chooseAux_perm (size : ℕ) :
    ∀ (l b : List α), b.length ≤ size →
      (chooseAux size b l).Perm
        ((List.sublistsLen (size - b.length) l).map (b ++ ·)) := by
  intro l
  induction l with
  | nil =>
      intro b hb
      by_cases heq : b.length = size
      · rw [chooseAux, if_pos heq, heq, Nat.sub_self, List.sublistsLen_zero]
        simp
      · have hlt : b.length < size := lt_of_le_of_ne hb heq
        rw [chooseAux, if_neg heq]
        have h1 : size - b.length = (size - b.length - 1) + 1 := by omega
        rw [h1, List.sublistsLen_succ_nil]
        simp
  | cons x xs ih =>
      intro b hb
      by_cases heq : b.length = size
      · rw [chooseAux, if_pos heq, heq, Nat.sub_self, List.sublistsLen_zero]
        simp
      · have hlt : b.length < size := lt_of_le_of_ne hb heq
        rw [chooseAux, if_neg heq]
        have hn : size - b.length = (size - b.length - 1) + 1 := by omega
        have h1 := ih (b ++ [x]) (by simp; omega)
        have h2 := ih b hb
        have hlen : size - (b ++ [x]).length = size - b.length - 1 := by
          simp; omega
        rw [hlen] at h1
        rw [hn, List.sublistsLen_succ_cons, List.map_append, List.map_map]
        have hcomp : ((b ++ ·) ∘ List.cons x) = ((b ++ [x]) ++ ·) := by
          funext s
          simp
        rw [hcomp, ← hn]
        exact (h1.append h2).trans List.perm_append_comm

theorem chooseN_perm_sublistsLen (l : List α) (k : ℕ) :
    (chooseN l k).Perm (List.sublistsLen k l) := by
  have h := chooseAux_perm k l [] (Nat.zero_le k)
  simpa [chooseN] using h

theorem chooseN_length (l : List α) (k : ℕ) :
    (chooseN l k).length = l.length.choose k := by
  rw [(chooseN_perm_sublistsLen l k).length_eq, List.length_sublistsLen]

theorem mem_chooseN {l s : List α} {k : ℕ} :
    s ∈ chooseN l k ↔ s.Sublist l ∧ s.length = k := by
  rw [(chooseN_perm_sublistsLen l k).mem_iff, List.mem_sublistsLen]

theorem chooseN_nodup {l : List α} {k : ℕ} (h : l.Nodup) :
    (chooseN l k).Nodup :=
  ((chooseN_perm_sublistsLen l k).nodup_iff).mpr (List.nodup_sublistsLen k h)

/-- In a duplicate-free list, the two orders of a pair cannot both be
subsequences. -/
theorem pair_sublist_antisymm {x y : α} :
    ∀ {l : List α}, l.Nodup → [x, y].Sublist l → [y, x].Sublist l → x = y := by
  intro l
  induction l with
  | nil => intro _ h1; cases h1
  | cons a l' ih =>
      intro hnd h1 h2
      obtain ⟨hal', hl'⟩ := List.nodup_cons.mp hnd
      cases h1 with
      | cons _ h1' =>
          cases h2 with
          | cons _ h2' => exact ih hl' h1' h2'
          | cons₂ _ h2' =>
              exact absurd (List.Sublist.mem (by simp) h1') hal'
      | cons₂ _ h1' =>
          cases h2 with
          | cons _ h2' =>
              exact absurd (List.Sublist.mem (by simp) h2') hal'
          | cons₂ _ h2' => rfl

/-- Two distinct members of a list occur as a two-element subsequence in
one order or the other. -/
theorem pair_sublist_total {x y : α} (hxy : x ≠ y) :
    ∀ {l : List α}, x ∈ l → y ∈ l →
      [x, y].Sublist l ∨ [y, x].Sublist l := by
  intro l
  induction l with
  | nil => intro hx; cases hx
  | cons a l' ih =>
      intro hx hy
      by_cases hax : a = x
      · subst hax
        have hy' : y ∈ l' := by
          rcases List.mem_cons.mp hy with h | h
          · exact absurd h.symm hxy
          · exact h
        exact Or.inl (List.Sublist.cons₂ _ (List.singleton_sublist.mpr hy'))
      · by_cases hay : a = y
        · subst hay
          have hx' : x ∈ l' := by
            rcases List.mem_cons.mp hx with h | h
            · exact absurd h.symm hax
            · exact h
          exact Or.inr (List.Sublist.cons₂ _ (List.singleton_sublist.mpr hx'))
        · have hx' : x ∈ l' := by
            rcases List.mem_cons.mp hx with h | h
            · exact absurd h.symm hax
            · exact h
          have hy' : y ∈ l' := by
            rcases List.mem_cons.mp hy with h | h
            · exact absurd h.symm hay
            · exact h
          exact (ih hx' hy').imp (List.Sublist.cons a) (List.Sublist.cons a)

/-- Reattaching a subsequence to the value-filtered remainder of a
duplicate-free list is a permutation of the list. -/
theorem sublist_append_filter_perm [DecidableEq α] :
    ∀ {k l : List α}, k.Sublist l → l.Nodup →
      (k ++ l.filter fun c => decide (c ∉ k)).Perm l := by
  intro k l h
  induction h with
  | slnil => intro _; simp
  | @cons l₁ l₂ a h ih =>
      intro hnd
      obtain ⟨hal, hl⟩ := List.nodup_cons.mp hnd
      rw [List.filter_cons]
      have hank : a ∉ l₁ := fun hmem => hal (h.subset hmem)
      rw [if_pos (by simpa using hank)]
      exact List.perm_middle.trans ((ih hl).cons a)
  | @cons₂ l₁ l₂ a h ih =>
      intro hnd
      obtain ⟨hal, hl⟩ := List.nodup_cons.mp hnd
      rw [List.filter_cons]
      have ha : (decide (a ∉ a :: l₁)) = false := by simp
      rw [ha]
      simp only [Bool.false_eq_true, if_false]
      have hfe : (l₂.filter fun c => decide (c ∉ a :: l₁)) =
          l₂.filter fun c => decide (c ∉ l₁) := by
        apply List.filter_congr
        intro c hc
        have hca : c ≠ a := fun he => hal (he ▸ hc)
        apply decide_eq_decide.mpr
        simp [hca]
      rw [hfe]
      exact (ih hl).cons a

/-- With pairwise-distinct ids, the id-based discard filter of the solver
agrees with plain value-based set difference. -/
theorem discards_eq_value_filter (six keep : List Card)
    (hids : (six.map (·.id)).Nodup) (hk : keep.Sublist six) :
    (six.filter fun card => !(keep.any fun kk => decide (kk.id = card.id))) =
      six.filter fun card => decide (card ∉ keep) := by
  apply List.filter_congr
  intro c hc
  by_cases hck : c ∈ keep
  · have h1 : (keep.any fun kk => decide (kk.id = c.id)) = true :=
      List.any_eq_true.mpr ⟨c, hck, by simp⟩
    simp [h1, hck]
  · have h1 : (keep.any fun kk => decide (kk.id = c.id)) = false := by
      cases h : (keep.any fun kk => decide (kk.id = c.id)) with
      | false => rfl
      | true =>
          exfalso
          obtain ⟨kk, hkk, hid⟩ := List.any_eq_true.mp h
          have : kk = c := List.inj_on_of_nodup_map hids
            (hk.subset hkk) hc (by simpa using hid)
          exact hck (this ▸ hkk)
    simp [h1, hck]

/-- Every entry of the unsorted `results` array reassembles the six dealt
cards: its keep has 4 cards and keep ++ discards is a permutation of the
input. -/
theorem discardResults_partition (six : List Card) (isDealer includeCrib : Bool)
    (hids : (six.map (·.id)).Nodup) :
    ∀ s ∈ discardResults six isDealer includeCrib,
      (s.keep ++ s.discards).Perm six ∧ s.keep.length = 4 := by
  intro s hs
  obtain ⟨keep, hkeep, rfl⟩ := List.mem_map.mp hs
  obtain ⟨hsub, hlen⟩ := mem_chooseN.mp hkeep
  have hnd : six.Nodup := List.Nodup.of_map _ hids
  constructor
  · show (keep ++ (six.filter fun card =>
      !(keep.any fun kk => decide (kk.id = card.id)))).Perm six
    rw [discards_eq_value_filter six keep hids hsub]
    exact sublist_append_filter_perm hsub hnd
  · exact hlen

/-- C7: on 6 distinct cards (distinct ids), `evaluateDiscards` returns
exactly 3 suggestions, ordered non-increasingly by `expectedValue`, with
ties kept in the `chooseN` enumeration order (any equal-EV pair of output
suggestions occurs as a subsequence of the unsorted `results` enumeration),
and every suggestion's 4-card keep plus 2-card discards is a permutation of
the original six (no overlap, nothing missing). -/
theorem C7_solver_output (six : List Card) (isDealer includeCrib : Bool)
    (h6 : six.length = 6) (hids : (six.map (·.id)).Nodup) :
    (evaluateDiscards six isDealer includeCrib).length = 3 ∧
    (evaluateDiscards six isDealer includeCrib).Pairwise
      (fun a b => b.expectedValue ≤ a.expectedValue) ∧
    (∀ x y : DiscardSuggestion,
      [x, y].Sublist (evaluateDiscards six isDealer includeCrib) →
      x.expectedValue = y.expectedValue →
      [x, y].Sublist (discardResults six isDealer includeCrib)) ∧
    (∀ s ∈ evaluateDiscards six isDealer includeCrib,
      (s.keep ++ s.discards).Perm six ∧ s.keep.length = 4) := by
  have hne : ¬ six.length ≠ 6 := by simp [h6]
  have heval : evaluateDiscards six isDealer includeCrib =
      ((discardResults six isDealer includeCrib).insertionSort fun a b =>
        b.expectedValue ≤ a.expectedValue).take 3 := by
    unfold evaluateDiscards
    rw [if_neg hne]
  haveI : IsTrans DiscardSuggestion
      (fun a b => b.expectedValue ≤ a.expectedValue) :=
    ⟨fun _ _ _ hab hbc => le_trans hbc hab⟩
  haveI : IsTotal DiscardSuggestion
      (fun a b => b.expectedValue ≤ a.expectedValue) :=
    ⟨fun a b => le_total b.expectedValue a.expectedValue⟩
  have hperm := List.perm_insertionSort
    (fun a b : DiscardSuggestion => b.expectedValue ≤ a.expectedValue)
    (discardResults six isDealer includeCrib)
  have hreslen : (discardResults six isDealer includeCrib).length = 15 := by
    rw [discardResults, List.length_map, chooseN_length, h6]
    decide
  have hndsix : six.Nodup := List.Nodup.of_map _ hids
  have hndres : (discardResults six isDealer includeCrib).Nodup := by
    apply List.Nodup.map_on ?_ (chooseN_nodup hndsix)
    intro x _ y _ hxy
    exact congrArg DiscardSuggestion.keep hxy
  have hndsorted : ((discardResults six isDealer includeCrib).insertionSort
      fun a b => b.expectedValue ≤ a.expectedValue).Nodup :=
    hperm.nodup_iff.mpr hndres
  have hsorted := List.sorted_insertionSort
    (fun a b : DiscardSuggestion => b.expectedValue ≤ a.expectedValue)
    (discardResults six isDealer includeCrib)
  refine ⟨?_, ?_, ?_, ?_⟩
  · rw [heval, List.length_take, hperm.length_eq, hreslen]
    decide
  · rw [heval]
    exact List.Pairwise.sublist (List.take_sublist 3 _) hsorted
  · intro x y hxy heq
    rw [heval] at hxy
    have hxy' : [x, y].Sublist ((discardResults six isDealer
        includeCrib).insertionSort fun a b =>
          b.expectedValue ≤ a.expectedValue) :=
      hxy.trans (List.take_sublist 3 _)
    have hxney : x ≠ y := by
      rintro rfl
      have h2 : 2 ≤ ((discardResults six isDealer includeCrib).insertionSort
          fun a b => b.expectedValue ≤ a.expectedValue).count x := by
        have hcle := hxy'.count_le x
        simpa using hcle
      have h1 := List.nodup_iff_count_le_one.mp hndsorted x
      omega
    have hxr : x ∈ discardResults six isDealer includeCrib :=
      hperm.mem_iff.mp (List.Sublist.mem (by simp) hxy')
    have hyr : y ∈ discardResults six isDealer includeCrib :=
      hperm.mem_iff.mp (List.Sublist.mem (by simp) hxy')
    rcases pair_sublist_total hxney hxr hyr with h | h
    · exact h
    · exfalso
      have hr : x.expectedValue ≤ y.expectedValue := le_of_eq heq
      have hstab := List.pair_sublist_insertionSort
        (r := fun a b : DiscardSuggestion =>
          b.expectedValue ≤ a.expectedValue) hr h
      exact hxney (pair_sublist_antisymm hndsorted hxy' hstab)
  · intro s hs
    rw [heval] at hs
    have hs' : s ∈ discardResults six isDealer includeCrib :=
      hperm.mem_iff.mp ((List.take_sublist 3 _).subset hs)
    exact discardResults_partition six isDealer includeCrib hids s hs'

/-- Witness for C7 at the concrete deal {A♠, 3♥, 5♦, 8♣, J♠, K♥}. -/
theorem C7_solver_output_witness :
    (([mkCard "A" 1 1 .spades, mkCard "3" 3 3 .hearts, mkCard "5" 5 5 .diamonds,
        mkCard "8" 8 8 .clubs, mkCard "J" 10 11 .spades,
        mkCard "K" 10 13 .hearts] : List Card).length = 6) ∧
    (([mkCard "A" 1 1 .spades, mkCard "3" 3 3 .hearts, mkCard "5" 5 5 .diamonds,
        mkCard "8" 8 8 .clubs, mkCard "J" 10 11 .spades,
        mkCard "K" 10 13 .hearts] : List Card).map (·.id)).Nodup ∧
    (evaluateDiscards [mkCard "A" 1 1 .spades, mkCard "3" 3 3 .hearts,
        mkCard "5" 5 5 .diamonds, mkCard "8" 8 8 .clubs,
        mkCard "J" 10 11 .spades, mkCard "K" 10 13 .hearts]
        false false).length = 3 :=
  ⟨by decide, by decide,
    (C7_solver_output _ false false (by decide) (by decide)).1⟩

/-! ### Claim C1 -/

/-- The `average` field of `averageHandScores` is the spec's guarded mean. -/
theorem averageHandScores_average (hand pool : List Card) :
    (averageHandScores hand pool).average = handAverageSpec hand pool := by
  unfold averageHandScores handAverageSpec
  by_cases hp : pool.length = 0
  · rw [if_pos hp, if_pos hp]
  · rw [if_neg hp, if_neg hp]
    simp [List.map_map]
    rfl

/-- On a valid 6-card input, the solver returns exactly 3 suggestions. -/
theorem evaluateDiscards_length (six : List Card) (isDealer includeCrib : Bool)
    (h6 : six.length = 6) :
    (evaluateDiscards six isDealer includeCrib).length = 3 := by
  unfold evaluateDiscards
  rw [if_neg (by simp [h6])]
  rw [List.length_take, (List.perm_insertionSort _ _).length_eq,
    discardResults, List.length_map, chooseN_length, h6]
  decide

/-- Every returned suggestion is one of the unsorted `results`. -/
theorem mem_evaluateDiscards_results (six : List Card)
    (isDealer includeCrib : Bool) :
    ∀ s ∈ evaluateDiscards six isDealer includeCrib,
      s ∈ discardResults six isDealer includeCrib := by
  intro s hs
  unfold evaluateDiscards at hs
  by_cases h6 : six.length ≠ 6
  · rw [if_pos h6] at hs
    cases hs
  · rw [if_neg h6] at hs
    exact (List.perm_insertionSort _ _).mem_iff.mp
      ((List.take_sublist 3 _).subset hs)

/-- Field computations of `suggestionFor` (generic, so that instances at
concrete inputs never force evaluation). -/
theorem suggestionFor_keep (six pool : List Card) (d c : Bool)
    (keep : List Card) : (suggestionFor six pool d c keep).keep = keep := rfl

theorem suggestionFor_handAverage (six pool : List Card) (d c : Bool)
    (keep : List Card) : (suggestionFor six pool d c keep).handAverage =
      (averageHandScores keep pool).average := rfl

theorem suggestionFor_cribAverage_noCrib (six pool : List Card) (d : Bool)
    (keep : List Card) :
    (suggestionFor six pool d false keep).cribAverage = 0 := rfl

theorem suggestionFor_expectedValue_noCrib (six pool : List Card) (d : Bool)
    (keep : List Card) :
    (suggestionFor six pool d false keep).expectedValue =
      (averageHandScores keep pool).average := rfl

theorem suggestionFor_bestStarters (six pool : List Card) (d c : Bool)
    (keep : List Card) : (suggestionFor six pool d c keep).bestStarters =
      (averageHandScores keep pool).best := rfl

set_option maxRecDepth 100000 in
set_option maxHeartbeats 4000000 in
/-- C1 counterexample: `DiscardSuggestion` has no `minHandScore` field, and
on the concrete deal `sampleDeal` no numeric component of any returned
suggestion equals the minimum hand score over the unseen pool: every
suggestion the solver can return carries `handAverage`, `cribAverage`,
`expectedValue` and best-starter scores all different from that minimum. -/
theorem C1_counterexample :
    ¬ ∀ s ∈ evaluateDiscards sampleDeal false false,
      suggestionCarriesMin sampleDeal s := by
  intro hclaim
  have hlen : (evaluateDiscards sampleDeal false false).length = 3 :=
    evaluateDiscards_length _ false false (by decide)
  obtain ⟨a, rest, hout⟩ :
      ∃ a rest, evaluateDiscards sampleDeal false false = a :: rest := by
    cases h : evaluateDiscards sampleDeal false false with
    | nil => rw [h] at hlen; simp at hlen
    | cons a rest => exact ⟨a, rest, rfl⟩
  have hmem : a ∈ evaluateDiscards sampleDeal false false := by
    rw [hout]
    exact List.mem_cons_self a rest
  have hres := mem_evaluateDiscards_results _ false false a hmem
  obtain ⟨keep, hkeep, hform⟩ := List.mem_map.mp hres
  have hcarry := hclaim a hmem
  have hbig : ((chooseN sampleDeal 4).all fun k =>
      (decide ((((starterPoolOf sampleDeal).map fun s =>
          (scoreHand k s).total).sum) ≠
        46 * minHandScoreSpec k (starterPoolOf sampleDeal)) &&
       decide (minHandScoreSpec k (starterPoolOf sampleDeal) ≠ 0) &&
       ((averageHandScores k (starterPoolOf sampleDeal)).best.all fun st =>
         decide (st.score ≠ minHandScoreSpec k (starterPoolOf sampleDeal))))) =
      true := by decide
  have hfacts := List.all_eq_true.mp hbig keep hkeep
  simp only [Bool.and_eq_true, decide_eq_true_eq] at hfacts
  obtain ⟨⟨hsum, hm0⟩, hbest⟩ := hfacts
  have hplen : (starterPoolOf sampleDeal).length = 46 := by decide
  have hlen0 : (((starterPoolOf sampleDeal).length : ℕ) : ℚ) ≠ 0 := by
    rw [hplen]
    exact_mod_cast (by omega : (46 : ℕ) ≠ 0)
  subst hform
  have havg : (suggestionFor sampleDeal (starterPoolOf sampleDeal) false false
      keep).handAverage =
      ((((starterPoolOf sampleDeal).map fun s =>
          (scoreHand keep s).total).sum : ℕ) : ℚ) /
        (((starterPoolOf sampleDeal).length : ℕ) : ℚ) := by
    rw [suggestionFor_handAverage, averageHandScores_average]
    unfold handAverageSpec
    rw [if_neg (by rw [hplen]; omega)]
  have havgne : (suggestionFor sampleDeal (starterPoolOf sampleDeal) false false
      keep).handAverage ≠
      ((minHandScoreSpec keep (starterPoolOf sampleDeal) : ℕ) : ℚ) := by
    rw [havg]
    intro heq
    rw [div_eq_iff hlen0, hplen] at heq
    have hnat : (((starterPoolOf sampleDeal).map fun s =>
        (scoreHand keep s).total).sum) =
        minHandScoreSpec keep (starterPoolOf sampleDeal) * 46 := by
      exact_mod_cast heq
    omega
  rcases hcarry with h | h | h | h
  · rw [suggestionFor_keep] at h
    exact havgne h
  · rw [suggestionFor_keep, suggestionFor_cribAverage_noCrib] at h
    exact hm0 (by exact_mod_cast h.symm)
  · rw [suggestionFor_keep, suggestionFor_expectedValue_noCrib,
      ← suggestionFor_handAverage sampleDeal (starterPoolOf sampleDeal)
        false false keep] at h
    exact havgne h
  · rw [suggestionFor_keep, suggestionFor_bestStarters] at h
    obtain ⟨st, hst, hsteq⟩ := h
    have hsc : st.score = minHandScoreSpec keep (starterPoolOf sampleDeal) := by
      exact_mod_cast hsteq
    have hne := List.all_eq_true.mp hbest st hst
    simp only [decide_eq_true_eq] at hne
    exact hne hsc

/-- C1 (amended): the source's `DiscardSuggestion` has no `minHandScore`
field and `evaluateDiscards` computes no minimum over the unseen pool;
what every returned suggestion does carry is `handAverage`, the arithmetic
mean of `scoreHand(keep, s).total` over every card `s` of the unseen pool
(guarded to 0 on an empty pool). -/
theorem C1_hand_average_not_minimum (six : List Card)
    (isDealer includeCrib : Bool) :
    (evaluateDiscards six isDealer includeCrib).Forall fun s =>
      s.handAverage = handAverageSpec s.keep (starterPoolOf six) := by
  apply List.forall_iff_forall_mem.mpr
  intro s hs
  have hs' := mem_evaluateDiscards_results six isDealer includeCrib s hs
  obtain ⟨keep, _, rfl⟩ := List.mem_map.mp hs'
  show (averageHandScores keep (starterPoolOf six)).average = _
  exact averageHandScores_average _ _
